import Mathlib

/-!
Verification of the presko maintenance/notification core.

Shallow embedding of:
* the bulk SMS campaign loop (`src/pages/api/one-sms.ts`, `handler`),
* the overdue resolver and grouper (`src/components/admin/dashboard/DevicesOverdueCard.tsx`,
  `groupedDevices`),
* the due-soon grouper (`src/components/admin/dashboard/DevicesDueCard.tsx`, `groupedClients`),
* the status classifier (`src/components/client/client_components/ClientDevicesTable.tsx`,
  `getDeviceStatus`),
* the derived due-date columns (`src/supabase/migrations/presko_migration.sql`, `devices`).

Modelling conventions: timestamps are `Nat` milliseconds (JS `Date.getTime()` on the
post-epoch dates the app handles); nullable DB date fields are `Option`; JS string
falsiness (`null` or `""`) is modelled by the empty string for text fields and by
`Option.isNone` for date-valued fields; ISO date strings compare lexicographically
exactly as their parsed timestamps, so a string comparison on `due_date` is embedded
as the `Nat` comparison on the timestamp.
-/

set_option autoImplicit false

namespace Presko

/-! ### Bulk SMS dispatcher (`src/pages/api/one-sms.ts`) -/

/-- A recipient row as returned by `clientApi.getAllClientsForSMS()`.
`""` models a JS-falsy (`null`/empty) `mobile`, `qr_code` or `name`. -/
structure SMSClient where
  id : String
  name : String
  mobile : String
  qr_code : String
deriving Repr, DecidableEq

/-- `SMSResult` from `one-sms.ts`. -/
structure SMSResult where
  mobile : String
  name : String
  success : Bool
  errorText : Option String := none
  messageId : Option String := none
deriving Repr, DecidableEq

/-- `BulkSMSResponse` from `one-sms.ts`. -/
structure BulkSMSResponse where
  totalClients : Nat
  successCount : Nat
  failureCount : Nat
  results : List SMSResult
deriving Repr, DecidableEq

/-- Outcome of one `fetch` to the Semaphore endpoint: a completed response with
`response.ok` true or false (carrying `response.text()`), or a thrown
transport-level error (carrying the error message). -/
inductive TransportOutcome where
  | ok (body : String)
  | notOk (body : String)
  | thrown (msg : String)
deriving Repr, DecidableEq

/-- Observable actions of the dispatch loop: an outbound transport call, or the
2000 ms `setTimeout` delay. -/
inductive SendEvent where
  | send (mobile : String)
  | delay
deriving Repr, DecidableEq

/-- JS `a || b` on strings (`""` is falsy). -/
def jsOr (a b : String) : String :=
  if a = "" then b else a

/-- The result entry pushed for one client, as a function of the client and the
transport outcome the environment would return for it (the loop body of
`handler`, lines 48-135 of `one-sms.ts`). -/
def smsResultFor (transport : SMSClient → TransportOutcome) (c : SMSClient) : SMSResult :=
  if c.mobile = "" ∨ c.qr_code = "" then
    { mobile := jsOr c.mobile "N/A", name := jsOr c.name "Unknown", success := false,
      errorText := some "Missing mobile number or QR code" }
  else
    match transport c with
    | .ok _ =>
      { mobile := c.mobile, name := jsOr c.name "Unknown", success := true,
        messageId := some "sent" }
    | .notOk body =>
      { mobile := c.mobile, name := jsOr c.name "Unknown", success := false,
        errorText := some (jsOr body "SMS sending failed") }
    | .thrown msg =>
      { mobile := jsOr c.mobile "N/A", name := jsOr c.name "Unknown", success := false,
        errorText := some msg }

/-- The events one client produces: ineligible clients `continue` before the
transport call; a completed call (ok or not) is followed by the 2000 ms delay;
a thrown call jumps to `catch`, skipping the delay. -/
def smsEventsFor (transport : SMSClient → TransportOutcome) (c : SMSClient) : List SendEvent :=
  if c.mobile = "" ∨ c.qr_code = "" then []
  else
    match transport c with
    | .ok _ => [.send c.mobile, .delay]
    | .notOk _ => [.send c.mobile, .delay]
    | .thrown _ => [.send c.mobile]

/-- 1 if this client's branch increments `successCount`. -/
def smsSuccessInc (transport : SMSClient → TransportOutcome) (c : SMSClient) : Nat :=
  if c.mobile = "" ∨ c.qr_code = "" then 0
  else
    match transport c with
    | .ok _ => 1
    | .notOk _ => 0
    | .thrown _ => 0

/-- 1 if this client's branch increments `failureCount`. -/
def smsFailureInc (transport : SMSClient → TransportOutcome) (c : SMSClient) : Nat :=
  1 - smsSuccessInc transport c

/-- The `for (const client of clients)` loop of `handler` with its accumulators
(`results`, `successCount`, `failureCount`) and the emitted event trace. -/
def runCampaignLoop (transport : SMSClient → TransportOutcome) :
    List SMSClient → List SMSResult → Nat → Nat → List SendEvent →
    List SMSResult × Nat × Nat × List SendEvent
  | [], results, sc, fc, trace => (results, sc, fc, trace)
  | c :: rest, results, sc, fc, trace =>
    runCampaignLoop transport rest (results ++ [smsResultFor transport c])
      (sc + smsSuccessInc transport c) (fc + smsFailureInc transport c)
      (trace ++ smsEventsFor transport c)

/-- The whole dispatch (`handler` after fetching the client list): runs the loop
over the clients and assembles the `BulkSMSResponse`, also returning the trace of
transport calls and delays. An empty client list short-circuits at lines 32-39
with the same zero response and no loop iteration. -/
def runCampaign (transport : SMSClient → TransportOutcome) (clients : List SMSClient) :
    BulkSMSResponse × List SendEvent :=
  let out := runCampaignLoop transport clients [] 0 0 []
  ({ totalClients := clients.length, successCount := out.2.1, failureCount := out.2.2.1,
     results := out.1 }, out.2.2.2)

/-! ### Overdue resolver and grouper (`DevicesOverdueCard.tsx`, `groupedDevices`) -/

/-- The template-literal key `` `${a}-${b}` `` used for both the client/location
group key and the per-device dedup key. -/
def joinKey (a b : String) : String := a ++ "-" ++ b

/-- One row of the overdue view (`DeviceOverdue` in `types/database`).
`due_date` is the parsed timestamp `new Date(row.due_date).getTime()` in ms;
the raw value is a date-only ISO string, so it is always midnight-aligned. -/
structure DeviceOverdue where
  id : String
  name : String
  client_name : String
  location_name : String
  due_type : String
  due_date : Nat
deriving Repr, DecidableEq

/-- `getServicePriority` from `DevicesOverdueCard.tsx` lines 31-35. -/
def getServicePriority (dueType : String) : Nat :=
  if dueType = "due_6_months" then 3
  else if dueType = "due_4_months" then 2
  else 1

/-- Milliseconds per day, the divisor `1000 * 60 * 60 * 24`. -/
def msPerDay : Nat := 86400000

/-- `Math.ceil((today.getTime() - due.getTime()) / 86400000)` for an overdue
date (`due ≤ now`), computed exactly over naturals. -/
def jsDaysOverdue (now due : Nat) : Nat :=
  (now - due + (msPerDay - 1)) / msPerDay

/-- The dedup key `` `${device.id}-${device.name}` ``. -/
def devKey (d : DeviceOverdue) : String := joinKey d.id d.name

/-- The group key `` `${device.client_name}-${device.location_name}` ``. -/
def clientKey (d : DeviceOverdue) : String := joinKey d.client_name d.location_name

/-- First-match lookup in an insertion-ordered association list (JS `Map.get`). -/
def getAssoc {β : Type} (k : String) : List (String × β) → Option β
  | [] => none
  | (k', v) :: rest => if k' = k then some v else getAssoc k rest

/-- JS `Map.set` on a present key: replaces the value, keeps the position. -/
def setAssoc {β : Type} (k : String) (v : β) : List (String × β) → List (String × β)
  | [] => [(k, v)]
  | (k', v') :: rest => if k' = k then (k, v) :: rest else (k', v') :: setAssoc k v rest

/-- The replacement test of `DevicesOverdueCard.tsx` lines 41-58: the incoming
device replaces the existing one when its priority is strictly higher, or the
priorities are equal and its `Math.ceil` days-overdue is strictly larger. -/
def overdueReplaces (now : Nat) (device existing : DeviceOverdue) : Bool :=
  if getServicePriority device.due_type > getServicePriority existing.due_type then true
  else if getServicePriority device.due_type = getServicePriority existing.due_type then
    decide (jsDaysOverdue now device.due_date > jsDaysOverdue now existing.due_date)
  else false

/-- One step of the per-device dedup map update (lines 27-59): `Map.get` on the
dedup key, then `Map.set` on a miss, else conditional replacement. -/
def overdueInsert (now : Nat) (devs : List (String × DeviceOverdue))
    (device : DeviceOverdue) : List (String × DeviceOverdue) :=
  match getAssoc (devKey device) devs with
  | none => devs ++ [(devKey device, device)]
  | some existing =>
    if overdueReplaces now device existing then setAssoc (devKey device) device devs
    else devs

/-- One value of the `groupedDevices` record: `key` is the object property name
(the join of the first-seen names), the displayed names come from the first
device, and `devices` is the insertion-ordered dedup map. -/
structure OverdueGroup where
  key : String
  client_name : String
  location_name : String
  devices : List (String × DeviceOverdue)
deriving Repr, DecidableEq

/-- The fresh group entry created for an unseen client key, after inserting
the creating device into its empty device map. -/
def newOverdueGroup (now : Nat) (device : DeviceOverdue) : OverdueGroup :=
  { key := clientKey device, client_name := device.client_name,
    location_name := device.location_name,
    devices := overdueInsert now [] device }

/-- The update of an existing group entry: its device map absorbs the incoming
device. -/
def updOverdueGroup (now : Nat) (g : OverdueGroup) (device : DeviceOverdue) :
    OverdueGroup :=
  { g with devices := overdueInsert now g.devices device }

/-- One step of the outer `reduce`: find or create the group keyed by the
client/location join, then update its device map. Object properties keep
insertion order. -/
def upsertOverdueGroups (now : Nat) (device : DeviceOverdue) :
    List OverdueGroup → List OverdueGroup
  | [] => [newOverdueGroup now device]
  | g :: gs =>
    if g.key = clientKey device then updOverdueGroup now g device :: gs
    else g :: upsertOverdueGroups now device gs

/-- `groupedDevices` from `DevicesOverdueCard.tsx` lines 17-62: the full
`reduce` over the input rows. -/
def groupedDevices (now : Nat) (devices : List DeviceOverdue) : List OverdueGroup :=
  devices.foldl (fun acc d => upsertOverdueGroups now d acc) []

/-- Lookup of a group by its object key. -/
def findGroup (k : String) : List OverdueGroup → Option OverdueGroup
  | [] => none
  | g :: gs => if g.key = k then some g else findGroup k gs

/-- The obligation the overdue view retains for group key `ck` and device key
`dk`. -/
def retainedAt (now : Nat) (devices : List DeviceOverdue) (ck dk : String) :
    Option DeviceOverdue :=
  match findGroup ck (groupedDevices now devices) with
  | none => none
  | some g => getAssoc dk g.devices

/-- Left fold keeping the current element only when `replaces` says the
incoming one wins (ties keep the earlier element). -/
def resolveWith (replaces : DeviceOverdue → DeviceOverdue → Bool) :
    List DeviceOverdue → Option DeviceOverdue :=
  List.foldl
    (fun acc d =>
      match acc with
      | none => some d
      | some e => if replaces d e then some d else some e)
    none

/-- Days overdue as the spec words it: whole calendar days between the due
date's midnight and now's midnight (`ceil` of an integral day count is
itself). -/
def specDaysOverdue (now due : Nat) : Nat :=
  now / msPerDay - due / msPerDay

/-- The spec's total order on two obligations of one device: higher
interval-kind priority first, then larger calendar-day days-overdue. -/
def specReplaces (now : Nat) (device existing : DeviceOverdue) : Bool :=
  if getServicePriority device.due_type > getServicePriority existing.due_type then true
  else if getServicePriority device.due_type = getServicePriority existing.due_type then
    decide (specDaysOverdue now device.due_date > specDaysOverdue now existing.due_date)
  else false

/-- The spec's per-device resolution over the obligations in input order. -/
def resolveOverdueSpec (now : Nat) (l : List DeviceOverdue) : Option DeviceOverdue :=
  resolveWith (specReplaces now) l

/-! ### Due-soon grouper (`DevicesDueCard.tsx`, `groupedClients`) -/

/-- One row of the due-soon view (`DeviceDueSoon` in `types/database`).
`due_date` is the chronological value of the ISO date string; the source
compares these strings with `<` (lexicographic) and with
`new Date(s).getTime()`, and both orders agree with this `Nat` order. -/
structure DeviceDueSoon where
  id : String
  name : String
  client_name : String
  location_name : String
  due_type : String
  due_date : Nat
deriving Repr, DecidableEq

/-- One `GroupedClient` value; `key` is the `Map` key
`` `${client_name}-${location_name}` ``. -/
structure GroupedClient where
  key : String
  clientName : String
  locationName : String
  devices : List DeviceDueSoon
  earliestDueDate : Nat
  totalDevices : Nat
deriving Repr, DecidableEq

/-- The `Map` key `` `${device.client_name}-${device.location_name}` `` of a
due-soon row. -/
def dueClientKey (d : DeviceDueSoon) : String := joinKey d.client_name d.location_name

/-- The group created on a missing key, after the unconditional push/refresh
that immediately follows creation. -/
def newDueGroup (d : DeviceDueSoon) : GroupedClient :=
  { key := dueClientKey d, clientName := d.client_name,
    locationName := d.location_name, devices := [d],
    earliestDueDate := d.due_date, totalDevices := 1 }

/-- The update of an existing group: push the device, refresh `totalDevices`
from the member list, lower `earliestDueDate` if the new due date is smaller. -/
def updDueGroup (g : GroupedClient) (d : DeviceDueSoon) : GroupedClient :=
  { g with devices := g.devices ++ [d],
           totalDevices := g.devices.length + 1,
           earliestDueDate :=
             if d.due_date < g.earliestDueDate then d.due_date
             else g.earliestDueDate }

/-- One step of the `forEach` in `DevicesDueCard.tsx` lines 82-103. -/
def dueUpsert (d : DeviceDueSoon) : List GroupedClient → List GroupedClient
  | [] => [newDueGroup d]
  | g :: gs =>
    if g.key = dueClientKey d then updDueGroup g d :: gs
    else g :: dueUpsert d gs

/-- The `Map` contents after the `forEach`, in insertion order
(`Array.from(clientMap.values())`). -/
def dueGroupsRaw (devices : List DeviceDueSoon) : List GroupedClient :=
  devices.foldl (fun acc d => dueUpsert d acc) []

/-- The comparator `(a, b) => parse(a.earliestDueDate) - parse(b.earliestDueDate)`
as a relation: ascending earliest due date. -/
def dueLe (a b : GroupedClient) : Prop :=
  a.earliestDueDate ≤ b.earliestDueDate

instance : DecidableRel dueLe := fun _ _ => Nat.decLe _ _

instance : IsTotal GroupedClient dueLe := ⟨fun _ _ => Nat.le_total _ _⟩

instance : IsTrans GroupedClient dueLe := ⟨fun _ _ _ => Nat.le_trans⟩

/-- `groupedClients` from `DevicesDueCard.tsx` lines 79-108: group, then a
stable ascending sort on each group's earliest due date (`Array.prototype.sort`
is stable; insertion sort on a total preorder is the matching stable sort). -/
def groupedClients (devices : List DeviceDueSoon) : List GroupedClient :=
  List.insertionSort dueLe (dueGroupsRaw devices)

/-- Minimum of a list of naturals, `none` on the empty list. -/
def listMinNat : List Nat → Option Nat
  | [] => none
  | x :: xs =>
    match listMinNat xs with
    | none => some x
    | some m => some (min x m)

/-! ### Status classifier (`ClientDevicesTable.tsx`, `getDeviceStatus`) -/

/-- The device record as the classifier reads it: the three derived due dates,
the last repair date and the last cleaning date, all nullable, as parsed ms
timestamps. -/
structure Device where
  due_3_months : Option Nat
  due_4_months : Option Nat
  due_6_months : Option Nat
  last_repair_date : Option Nat
  last_cleaning_date : Option Nat
deriving Repr, DecidableEq

/-- The local `dueDates` list of `getDeviceStatus`: the non-null due dates. -/
def deviceDueList (device : Device) : List Nat :=
  [device.due_3_months, device.due_4_months, device.due_6_months].filterMap id

/-- `getDeviceStatus` from `ClientDevicesTable.tsx` lines 50-70: repair check,
then sort the non-null due dates ascending and compare the first against
`new Date()` by full `getTime()` values (time of day included). -/
def getDeviceStatus (now : Nat) (device : Device) : String :=
  if device.last_repair_date.isSome then "repair"
  else if device.due_3_months.isSome ∨ device.due_4_months.isSome ∨
      device.due_6_months.isSome then
    match (List.insertionSort (· ≤ ·) (deviceDueList device)).head? with
    | some nearestDue => if nearestDue < now then "due" else "maintain"
    | none => "maintain"
  else if device.last_cleaning_date.isNone then "scheduled"
  else "scheduled"

/-- The classifier as the spec words it, for comparison: identical except that
the `due`/`maintain` boundary compares calendar days only (`nearest < now`
date-only, no time-of-day component). -/
def getDeviceStatusSpec (now : Nat) (device : Device) : String :=
  if device.last_repair_date.isSome then "repair"
  else if device.due_3_months.isSome ∨ device.due_4_months.isSome ∨
      device.due_6_months.isSome then
    match (List.insertionSort (· ≤ ·) (deviceDueList device)).head? with
    | some nearestDue =>
      if nearestDue / msPerDay < now / msPerDay then "due" else "maintain"
    | none => "maintain"
  else "scheduled"

/-! ### Derived due-date columns (`presko_migration.sql`, table `devices`) -/

/-- A calendar date; months are 1-12 and days 1-31 on well-formed values. -/
structure PDate where
  year : Nat
  month : Nat
  day : Nat
deriving Repr, DecidableEq

/-- Gregorian leap-year rule. -/
def isLeapYear (y : Nat) : Bool :=
  (y % 4 = 0 ∧ y % 100 ≠ 0) ∨ y % 400 = 0

/-- Length of a month in the Gregorian calendar. -/
def daysInMonth (y m : Nat) : Nat :=
  if m = 2 then (if isLeapYear y then 29 else 28)
  else if m = 4 ∨ m = 6 ∨ m = 9 ∨ m = 11 then 30
  else 31

/-- PostgreSQL `date + INTERVAL 'n months'`: advance the month index and clamp
the day to the length of the target month. -/
def addMonths (d : PDate) (n : Nat) : PDate :=
  let t := d.year * 12 + (d.month - 1) + n
  { year := t / 12, month := t % 12 + 1,
    day := min d.day (daysInMonth (t / 12) (t % 12 + 1)) }

/-- Generated column `due_3_months` (SQL `NULL` propagates through `+`). -/
def due_3_months (lastCleaning : Option PDate) : Option PDate :=
  lastCleaning.map (addMonths · 3)

/-- Generated column `due_4_months`. -/
def due_4_months (lastCleaning : Option PDate) : Option PDate :=
  lastCleaning.map (addMonths · 4)

/-- Generated column `due_6_months`. -/
def due_6_months (lastCleaning : Option PDate) : Option PDate :=
  lastCleaning.map (addMonths · 6)

/-- Chronological strict order on calendar dates (lexicographic). -/
def dateLt (a b : PDate) : Prop :=
  a.year < b.year ∨ (a.year = b.year ∧
    (a.month < b.month ∨ (a.month = b.month ∧ a.day < b.day)))

/-- Chronological order on calendar dates. -/
def dateLe (a b : PDate) : Prop :=
  dateLt a b ∨ a = b

/-- The month ordinal of a date. -/
def monthKey (d : PDate) : Nat := d.year * 12 + (d.month - 1)

/-! ### Auxiliary notions and concrete inputs used in statements -/

/-- Lookup of a due-soon group by its map key. -/
def findGC (k : String) : List GroupedClient → Option GroupedClient
  | [] => none
  | g :: gs => if g.key = k then some g else findGC k gs

/-- The nearest (minimum) non-null due date of a device. -/
def nearestDueDate (device : Device) : Option Nat :=
  listMinNat (deviceDueList device)

/-- A transport stub whose every call completes with `response.ok`. -/
def okTransport : SMSClient → TransportOutcome := fun _ => .ok "OK"

/-- Concrete recipient: eligible. -/
def exClientA : SMSClient :=
  { id := "1", name := "Ana", mobile := "0917", qr_code := "qa" }

/-- Concrete recipient: ineligible (empty mobile). -/
def exClientB : SMSClient :=
  { id := "2", name := "Ben", mobile := "", qr_code := "qb" }

/-- Concrete recipient: eligible. -/
def exClientC : SMSClient :=
  { id := "3", name := "Cara", mobile := "0999", qr_code := "qc" }

/-- Concrete due-soon row: client A at Home, due 2024-01-01 (encoded 20240101;
the encoding preserves the chronological order of ISO date strings). -/
def exDueA1 : DeviceDueSoon :=
  { id := "d1", name := "AC 1", client_name := "A", location_name := "Home",
    due_type := "3_months", due_date := 20240101 }

/-- Concrete due-soon row: client A at Home, due 2024-01-10. -/
def exDueA2 : DeviceDueSoon :=
  { id := "d2", name := "AC 2", client_name := "A", location_name := "Home",
    due_type := "3_months", due_date := 20240110 }

/-- Concrete due-soon row whose client is `"a"` and location `"b-c"`. -/
def cexDueX : DeviceDueSoon :=
  { id := "x", name := "AC", client_name := "a", location_name := "b-c",
    due_type := "3_months", due_date := 5 }

/-- Concrete due-soon row whose client is `"a-b"` and location `"c"`: its
hyphen-joined key collides with `cexDueX`'s. -/
def cexDueY : DeviceDueSoon :=
  { id := "y", name := "AC", client_name := "a-b", location_name := "c",
    due_type := "3_months", due_date := 6 }

/-- Concrete device: repaired, with due dates far in the past. -/
def exRepairedDevice : Device :=
  { due_3_months := some 0, due_4_months := some 0, due_6_months := some 0,
    last_repair_date := some 86400000, last_cleaning_date := some 0 }

/-- Concrete device: not repaired, one due date at midnight of day 5. -/
def exDueTodayDevice : Device :=
  { due_3_months := some (5 * 86400000), due_4_months := none, due_6_months := none,
    last_repair_date := none, last_cleaning_date := some 0 }

/-- The single group produced by grouping `exDueA1` and `exDueA2`. -/
def exDueGroupA : GroupedClient :=
  { key := "A-Home", clientName := "A", locationName := "Home",
    devices := [exDueA1, exDueA2], earliestDueDate := 20240101,
    totalDevices := 2 }

/-- Concrete overdue obligation: short interval, 5 days overdue at
`now = 10 * msPerDay`. -/
def exOvShort : DeviceOverdue :=
  { id := "dev1", name := "AC", client_name := "Acme", location_name := "HQ",
    due_type := "due_3_months", due_date := 5 * 86400000 }

/-- Concrete overdue obligation on the same device: long interval, 1 day
overdue at `now = 10 * msPerDay`. -/
def exOvLong : DeviceOverdue :=
  { id := "dev1", name := "AC", client_name := "Acme", location_name := "HQ",
    due_type := "due_6_months", due_date := 9 * 86400000 }

/-- Concrete overdue obligation: device id 7 named Left. -/
def exOvLeft : DeviceOverdue :=
  { id := "7", name := "Left", client_name := "Acme", location_name := "HQ",
    due_type := "due_3_months", due_date := 5 * 86400000 }

/-- Concrete overdue obligation: same device id 7 but named Right. -/
def exOvRight : DeviceOverdue :=
  { id := "7", name := "Right", client_name := "Acme", location_name := "HQ",
    due_type := "due_3_months", due_date := 6 * 86400000 }

/-- Loop invariant of the overdue grouping pass: after `processed` rows the
group keys are distinct; within every group each entry is stored under its
device's dedup key and carries the group's client/location join; and the slot
under device key `dk` of the group under client key `k` holds exactly the
winner of the replacement fold over the processed rows with those two keys, in
input order. -/
def OverdueInv (now : Nat) (processed : List DeviceOverdue)
    (acc : List OverdueGroup) : Prop :=
  (acc.map OverdueGroup.key).Nodup ∧
  (∀ g ∈ acc, (g.devices.map Prod.fst).Nodup ∧
    ∀ e ∈ g.devices, e.1 = devKey e.2 ∧ clientKey e.2 = g.key) ∧
  ∀ k, match findGroup k acc with
    | none => processed.filter (fun d => clientKey d = k) = []
    | some g =>
      g.key = k ∧
      ∀ dk, getAssoc dk g.devices =
        resolveWith (overdueReplaces now)
          (processed.filter (fun d => clientKey d = k ∧ devKey d = dk))

/-- Loop invariant of the due-soon grouping pass: after `processed` rows, the
map keys are distinct, and the group found under each key `k` (if any) holds
exactly the processed rows whose join key is `k`, with its aggregates derived
from its member list; a key with no group has no matching processed row. -/
def DueInv (processed : List DeviceDueSoon) (acc : List GroupedClient) : Prop :=
  (acc.map GroupedClient.key).Nodup ∧
  ∀ k, match findGC k acc with
    | none => processed.filter (fun d => dueClientKey d = k) = []
    | some g =>
      g.key = k ∧
      g.devices = processed.filter (fun d => dueClientKey d = k) ∧
      g.totalDevices = g.devices.length ∧
      listMinNat (g.devices.map DeviceDueSoon.due_date) = some g.earliestDueDate

/-! ## Theorems -/

/-- Unfolding the loop: the accumulators collect one entry, one success/failure
increment and one event block per client, in input order. -/
theorem runCampaignLoop_eq (transport : SMSClient → TransportOutcome)
    (clients : List SMSClient) (results : List SMSResult) (sc fc : Nat)
    (trace : List SendEvent) :
    runCampaignLoop transport clients results sc fc trace =
      (results ++ clients.map (smsResultFor transport),
       sc + (clients.map (smsSuccessInc transport)).sum,
       fc + (clients.map (smsFailureInc transport)).sum,
       trace ++ clients.flatMap (smsEventsFor transport)) := by
  induction clients generalizing results sc fc trace with
  | nil => simp [runCampaignLoop]
  | cons c rest ih =>
    simp only [runCampaignLoop, ih, List.map_cons, List.sum_cons, List.flatMap_cons,
      Prod.mk.injEq]
    refine ⟨by simp, by omega, by omega, by simp⟩

/-- Closed form of `runCampaign`. -/
theorem runCampaign_eq (transport : SMSClient → TransportOutcome)
    (clients : List SMSClient) :
    runCampaign transport clients =
      ({ totalClients := clients.length,
         successCount := (clients.map (smsSuccessInc transport)).sum,
         failureCount := (clients.map (smsFailureInc transport)).sum,
         results := clients.map (smsResultFor transport) },
       clients.flatMap (smsEventsFor transport)) := by
  simp [runCampaign, runCampaignLoop_eq]

theorem smsSuccessInc_le_one (transport : SMSClient → TransportOutcome) (c : SMSClient) :
    smsSuccessInc transport c ≤ 1 := by
  unfold smsSuccessInc
  split
  · omega
  · split <;> omega

theorem sum_inc_eq_length (transport : SMSClient → TransportOutcome)
    (clients : List SMSClient) :
    (clients.map (smsSuccessInc transport)).sum +
      (clients.map (smsFailureInc transport)).sum = clients.length := by
  induction clients with
  | nil => simp
  | cons c rest ih =>
    have h := smsSuccessInc_le_one transport c
    simp only [List.map_cons, List.sum_cons, List.length_cons, smsFailureInc]
    omega

theorem runCampaign_results_cons (transport : SMSClient → TransportOutcome)
    (c : SMSClient) (rest : List SMSClient) :
    (runCampaign transport (c :: rest)).1.results =
      smsResultFor transport c :: (runCampaign transport rest).1.results := by
  simp [runCampaign_eq]

theorem runCampaign_success_cons (transport : SMSClient → TransportOutcome)
    (c : SMSClient) (rest : List SMSClient) :
    (runCampaign transport (c :: rest)).1.successCount =
      smsSuccessInc transport c + (runCampaign transport rest).1.successCount := by
  simp [runCampaign_eq]

theorem runCampaign_failure_cons (transport : SMSClient → TransportOutcome)
    (c : SMSClient) (rest : List SMSClient) :
    (runCampaign transport (c :: rest)).1.failureCount =
      smsFailureInc transport c + (runCampaign transport rest).1.failureCount := by
  simp [runCampaign_eq]

theorem runCampaign_trace_cons (transport : SMSClient → TransportOutcome)
    (c : SMSClient) (rest : List SMSClient) :
    (runCampaign transport (c :: rest)).2 =
      smsEventsFor transport c ++ (runCampaign transport rest).2 := by
  simp [runCampaign_eq]

/-- C1: for every transport behaviour and every recipient list, the dispatch
returns `successCount + failureCount` equal to the number of recipients, and
its `results` list is exactly the per-recipient outcome of each input
recipient, one entry each, in input order. -/
theorem campaign_counts_and_order (transport : SMSClient → TransportOutcome)
    (clients : List SMSClient) :
    (runCampaign transport clients).1.successCount +
        (runCampaign transport clients).1.failureCount = clients.length ∧
    (runCampaign transport clients).1.results =
      clients.map (smsResultFor transport) ∧
    (runCampaign transport clients).1.results.length = clients.length := by
  refine ⟨?_, ?_, ?_⟩ <;> simp [runCampaign_eq, sum_inc_eq_length]

/-- C6: a per-recipient transport failure (non-success response or thrown
transport error) is recorded in that recipient's entry with its error text and
bumps only the failure counter while the loop continues over the rest; an
ineligible recipient (empty mobile or empty QR reference) is an immediate
failure with a descriptive reason and produces no transport call; the empty
recipient list returns the all-zero report without any transport call. -/
theorem dispatch_fault_isolation (transport : SMSClient → TransportOutcome)
    (c : SMSClient) (rest : List SMSClient) (body msg : String) :
    runCampaign transport [] =
      ({ totalClients := 0, successCount := 0, failureCount := 0, results := [] }, []) ∧
    ((c.mobile = "" ∨ c.qr_code = "") →
      (runCampaign transport (c :: rest)).1.results =
        { mobile := jsOr c.mobile "N/A", name := jsOr c.name "Unknown",
          success := false,
          errorText := some "Missing mobile number or QR code" } ::
          (runCampaign transport rest).1.results ∧
      (runCampaign transport (c :: rest)).1.failureCount =
        (runCampaign transport rest).1.failureCount + 1 ∧
      (runCampaign transport (c :: rest)).1.successCount =
        (runCampaign transport rest).1.successCount ∧
      (runCampaign transport (c :: rest)).2 = (runCampaign transport rest).2) ∧
    (¬(c.mobile = "" ∨ c.qr_code = "") → transport c = .notOk body →
      (runCampaign transport (c :: rest)).1.results =
        { mobile := c.mobile, name := jsOr c.name "Unknown", success := false,
          errorText := some (jsOr body "SMS sending failed") } ::
          (runCampaign transport rest).1.results ∧
      (runCampaign transport (c :: rest)).1.failureCount =
        (runCampaign transport rest).1.failureCount + 1 ∧
      (runCampaign transport (c :: rest)).1.successCount =
        (runCampaign transport rest).1.successCount) ∧
    (¬(c.mobile = "" ∨ c.qr_code = "") → transport c = .thrown msg →
      (runCampaign transport (c :: rest)).1.results =
        { mobile := jsOr c.mobile "N/A", name := jsOr c.name "Unknown",
          success := false, errorText := some msg } ::
          (runCampaign transport rest).1.results ∧
      (runCampaign transport (c :: rest)).1.failureCount =
        (runCampaign transport rest).1.failureCount + 1 ∧
      (runCampaign transport (c :: rest)).1.successCount =
        (runCampaign transport rest).1.successCount) := by
  refine ⟨by simp [runCampaign_eq], ?_, ?_, ?_⟩
  · intro h
    refine ⟨?_, ?_, ?_, ?_⟩ <;>
      simp [runCampaign_results_cons, runCampaign_failure_cons,
        runCampaign_success_cons, runCampaign_trace_cons, smsResultFor,
        smsFailureInc, smsSuccessInc, smsEventsFor, h, Nat.add_comm]
  · intro h ht
    refine ⟨?_, ?_, ?_⟩ <;>
      simp [runCampaign_results_cons, runCampaign_failure_cons,
        runCampaign_success_cons, smsResultFor, smsFailureInc, smsSuccessInc,
        h, ht, Nat.add_comm]
  · intro h ht
    refine ⟨?_, ?_, ?_⟩ <;>
      simp [runCampaign_results_cons, runCampaign_failure_cons,
        runCampaign_success_cons, smsResultFor, smsFailureInc, smsSuccessInc,
        h, ht, Nat.add_comm]

/-- C6 witness: the theorem instantiated on a concrete ineligible recipient and
a concrete failing transport. -/
theorem dispatch_fault_isolation_witness :
    (runCampaign okTransport (exClientB :: [])).1.results =
      { mobile := "N/A", name := "Ben", success := false,
        errorText := some "Missing mobile number or QR code" } ::
        (runCampaign okTransport []).1.results ∧
    (runCampaign okTransport (exClientB :: [])).2 = (runCampaign okTransport []).2 := by
  have h := dispatch_fault_isolation okTransport exClientB [] "b" "m"
  have h2 := h.2.1 (Or.inl rfl)
  exact ⟨h2.1, h2.2.2.2⟩

/-- C5 counterexample: on the three-recipient run the claim itself describes
(only the second recipient ineligible, all transport calls succeeding), the
trace ends with a delay: the 2000 ms wait runs right after the last
recipient's send, so the delay IS applied after the last recipient,
contradicting the claim's "never applied after the last recipient". -/
theorem delay_after_last_cex :
    (runCampaign okTransport [exClientA, exClientB, exClientC]).2 =
      [.send "0917", .delay, .send "0999", .delay] ∧
    (runCampaign okTransport [exClientA, exClientB, exClientC]).2.getLast? =
      some SendEvent.delay := by
  constructor <;> rfl

/-- C5 amended: the delay is applied after each completed transport call —
successful or non-success response — including after the last recipient; it is
not applied for ineligible recipients nor after a thrown transport error. On
the three-recipient run with only the second recipient ineligible it is
applied exactly twice, once after each of the two sends (the second of which
is the last recipient). -/
theorem delay_policy_amended (transport : SMSClient → TransportOutcome)
    (c : SMSClient) (clients : List SMSClient) (body msg : String) :
    (runCampaign transport clients).2 = clients.flatMap (smsEventsFor transport) ∧
    ((c.mobile = "" ∨ c.qr_code = "") → smsEventsFor transport c = []) ∧
    (¬(c.mobile = "" ∨ c.qr_code = "") → transport c = .ok body →
      smsEventsFor transport c = [.send c.mobile, .delay]) ∧
    (¬(c.mobile = "" ∨ c.qr_code = "") → transport c = .notOk body →
      smsEventsFor transport c = [.send c.mobile, .delay]) ∧
    (¬(c.mobile = "" ∨ c.qr_code = "") → transport c = .thrown msg →
      smsEventsFor transport c = [.send c.mobile]) ∧
    (runCampaign okTransport [exClientA, exClientB, exClientC]).2.count
      SendEvent.delay = 2 := by
  refine ⟨by simp [runCampaign_eq], fun h => by simp [smsEventsFor, h],
    ?_, ?_, ?_, by rfl⟩ <;>
    · intro h ht
      simp [smsEventsFor, h, ht]

/-- C5 witness: the amended theorem instantiated on concrete recipients. -/
theorem delay_policy_amended_witness :
    smsEventsFor okTransport exClientB = [] ∧
    smsEventsFor okTransport exClientA = [.send "0917", .delay] := by
  have hA := delay_policy_amended okTransport exClientA [] "OK" "m"
  have hB := delay_policy_amended okTransport exClientB [] "OK" "m"
  exact ⟨hB.2.1 (Or.inl rfl), hA.2.2.1 (by decide) rfl⟩

/-- C4: a non-null `last_repair_date` makes the classifier return `repair`
whatever the three due dates are. -/
theorem repair_overrides (now : Nat) (device : Device)
    (h : device.last_repair_date.isSome) :
    getDeviceStatus now device = "repair" := by
  simp [getDeviceStatus, h]

/-- C4 witness: a repaired device whose due dates are far in the past. -/
theorem repair_overrides_witness :
    getDeviceStatus (10 * 86400000) exRepairedDevice = "repair" :=
  repair_overrides (10 * 86400000) exRepairedDevice (by rfl)

theorem addMonths_month (d : PDate) (n : Nat) :
    (addMonths d n).month = (d.year * 12 + (d.month - 1) + n) % 12 + 1 := rfl

theorem addMonths_year (d : PDate) (n : Nat) :
    (addMonths d n).year = (d.year * 12 + (d.month - 1) + n) / 12 := rfl

/-- A strictly smaller month ordinal means a chronologically earlier date,
once months are in range. -/
theorem pdate_lt_of_monthKey_lt {a b : PDate} (ha1 : 1 ≤ a.month)
    (ha2 : a.month ≤ 12) (hb1 : 1 ≤ b.month) (hb2 : b.month ≤ 12)
    (h : monthKey a < monthKey b) : dateLt a b := by
  unfold monthKey at h
  unfold dateLt
  omega

/-- Adding strictly more months gives a strictly later date, whatever day
clamping does. -/
theorem addMonths_lt (d : PDate) (m n : Nat) (h : m < n) :
    dateLt (addMonths d m) (addMonths d n) := by
  apply pdate_lt_of_monthKey_lt
  · rw [addMonths_month]
    omega
  · rw [addMonths_month]
    omega
  · rw [addMonths_month]
    omega
  · rw [addMonths_month]
    omega
  · unfold monthKey
    rw [addMonths_month, addMonths_month, addMonths_year, addMonths_year]
    omega

/-- C9: a null `last_cleaning_date` yields three null due dates; a non-null one
yields exactly calendar-month additions of 3, 4 and 6 months (day clamped to
the target month's length, leap years included), and these satisfy
`due_3_months ≤ due_4_months ≤ due_6_months` chronologically. -/
theorem due_dates_null_and_monotone :
    (due_3_months none = none ∧ due_4_months none = none ∧
      due_6_months none = none) ∧
    ∀ d : PDate,
      due_3_months (some d) = some (addMonths d 3) ∧
      due_4_months (some d) = some (addMonths d 4) ∧
      due_6_months (some d) = some (addMonths d 6) ∧
      dateLe (addMonths d 3) (addMonths d 4) ∧
      dateLe (addMonths d 4) (addMonths d 6) :=
  ⟨⟨rfl, rfl, rfl⟩, fun d =>
    ⟨rfl, rfl, rfl, Or.inl (addMonths_lt d 3 4 (by omega)),
      Or.inl (addMonths_lt d 4 6 (by omega))⟩⟩

theorem head?_orderedInsert_le (a : Nat) (l : List Nat) :
    (List.orderedInsert (· ≤ ·) a l).head? =
      some (match l.head? with | none => a | some b => min a b) := by
  cases l with
  | nil => rfl
  | cons b t =>
    by_cases h : a ≤ b <;> simp [List.orderedInsert, h, Nat.min_def]

/-- The head of the ascending sort is the minimum of the list: `sort[0]` in the
source is the nearest due date. -/
theorem head?_insertionSort_min (l : List Nat) :
    (List.insertionSort (· ≤ ·) l).head? = listMinNat l := by
  induction l with
  | nil => rfl
  | cons x xs ih =>
    rw [List.insertionSort, head?_orderedInsert_le, ih]
    cases h : listMinNat xs <;> simp [listMinNat, h]

/-- C3 counterexample: a device (no repair) whose only due date is midnight of
day 5, classified at 1 ms past that midnight. A date-only comparison sees
equal days (day 5 on both sides, not strictly before) and would give
`maintain`; the code compares full `getTime()` values and gives `due`. -/
theorem classifier_time_of_day_cex :
    getDeviceStatus (5 * 86400000 + 1) exDueTodayDevice = "due" ∧
    getDeviceStatusSpec (5 * 86400000 + 1) exDueTodayDevice = "maintain" := by
  constructor <;> rfl

/-- C3 amended: for a device with null `last_repair_date`, no non-null due
dates give `scheduled`; otherwise the classifier returns `due` exactly when
the minimum due date's timestamp is strictly before the current instant,
compared at full millisecond precision (time of day included, not
date-only), and `maintain` otherwise. -/
theorem classifier_amended (now : Nat) (device : Device)
    (h : device.last_repair_date = none) :
    (deviceDueList device = [] → getDeviceStatus now device = "scheduled") ∧
    ∀ nearest, nearestDueDate device = some nearest →
      getDeviceStatus now device = if nearest < now then "due" else "maintain" := by
  constructor
  · intro hemp
    have h3 : device.due_3_months = none ∧ device.due_4_months = none ∧
        device.due_6_months = none := by
      obtain ⟨d3, d4, d6, rep, cl⟩ := device
      simp only [deviceDueList] at hemp
      cases d3 <;> cases d4 <;> cases d6 <;> simp_all
    unfold getDeviceStatus
    rw [if_neg (by simp [h]), if_neg (by simp [h3.1, h3.2.1, h3.2.2])]
    exact ite_self _
  · intro nearest hmin
    have hmin' : listMinNat (deviceDueList device) = some nearest := hmin
    have hne : device.due_3_months.isSome ∨ device.due_4_months.isSome ∨
        device.due_6_months.isSome := by
      obtain ⟨d3, d4, d6, rep, cl⟩ := device
      simp only [nearestDueDate, deviceDueList] at hmin
      cases d3 <;> cases d4 <;> cases d6 <;> simp_all [listMinNat]
    unfold getDeviceStatus
    rw [if_neg (by simp [h]), if_pos hne, head?_insertionSort_min, hmin']

/-- C3 witness: the amended theorem applied to the concrete device due at
midnight of day 5, classified 1 ms later. -/
theorem classifier_amended_witness :
    getDeviceStatus (5 * 86400000 + 1) exDueTodayDevice =
      (if 5 * 86400000 < 5 * 86400000 + 1 then "due" else "maintain") :=
  (classifier_amended (5 * 86400000 + 1) exDueTodayDevice rfl).2
    (5 * 86400000) rfl

theorem updDueGroup_key (g : GroupedClient) (d : DeviceDueSoon) :
    (updDueGroup g d).key = g.key := rfl

theorem newDueGroup_key (d : DeviceDueSoon) :
    (newDueGroup d).key = dueClientKey d := rfl

theorem listMinNat_append_one (l : List Nat) (x : Nat) :
    listMinNat (l ++ [x]) =
      some (match listMinNat l with | none => x | some m => min m x) := by
  induction l with
  | nil => rfl
  | cons y ys ih =>
    rw [List.cons_append]
    simp only [listMinNat, ih]
    cases h : listMinNat ys <;> simp [h, Nat.min_assoc]

theorem findGC_eq_none_iff (k : String) (acc : List GroupedClient) :
    findGC k acc = none ↔ k ∉ acc.map GroupedClient.key := by
  induction acc with
  | nil => simp [findGC]
  | cons g gs ih =>
    by_cases h : g.key = k
    · simp [findGC, h]
    · simp [findGC, h, ih]
      exact fun _ e => h e.symm

theorem findGC_self_of_nodup (acc : List GroupedClient)
    (hnd : (acc.map GroupedClient.key).Nodup) :
    ∀ g ∈ acc, findGC g.key acc = some g := by
  induction acc with
  | nil => simp
  | cons a gs ih =>
    intro g hg
    rcases List.mem_cons.mp hg with rfl | hmem
    · simp [findGC]
    · have hne : ¬ a.key = g.key := by
        intro e
        exact (List.nodup_cons.mp (by simpa using hnd)).1
          (e ▸ List.mem_map_of_mem GroupedClient.key hmem)
      have ih' := ih (List.nodup_cons.mp (by simpa using hnd)).2 g hmem
      simp [findGC, hne, ih']

theorem findGC_dueUpsert (d : DeviceDueSoon) (acc : List GroupedClient) (k : String) :
    findGC k (dueUpsert d acc) =
      if k = dueClientKey d then
        match findGC k acc with
        | none => some (newDueGroup d)
        | some g => some (updDueGroup g d)
      else findGC k acc := by
  induction acc with
  | nil =>
    by_cases h : k = dueClientKey d
    · subst h
      simp [dueUpsert, findGC, newDueGroup_key]
    · have h2 : ¬ (newDueGroup d).key = k := by
        rw [newDueGroup_key]
        exact fun e => h e.symm
      simp [dueUpsert, findGC, h, h2]
  | cons g gs ih =>
    by_cases hg : g.key = dueClientKey d
    · by_cases hk : k = dueClientKey d
      · subst hk
        simp [dueUpsert, hg, findGC, updDueGroup_key]
      · have h1 : ¬ g.key = k := fun e => hk (e.symm.trans hg)
        have h2 : ¬ dueClientKey d = k := fun e => hk e.symm
        simp [dueUpsert, hg, findGC, updDueGroup_key, h1, h2, hk]
    · by_cases hgk : g.key = k
      · have hk : ¬ k = dueClientKey d := fun e => hg (hgk.trans e)
        simp [dueUpsert, hg, findGC, hgk, hk]
      · simp [dueUpsert, hg, findGC, hgk, ih]

theorem dueUpsert_keys (d : DeviceDueSoon) (acc : List GroupedClient) :
    (dueUpsert d acc).map GroupedClient.key =
      match findGC (dueClientKey d) acc with
      | none => acc.map GroupedClient.key ++ [dueClientKey d]
      | some _ => acc.map GroupedClient.key := by
  induction acc with
  | nil => simp [dueUpsert, findGC, newDueGroup_key]
  | cons g gs ih =>
    by_cases hg : g.key = dueClientKey d
    · simp [dueUpsert, hg, findGC, updDueGroup_key]
    · cases h : findGC (dueClientKey d) gs <;>
        simp [dueUpsert, hg, findGC, ih, h]

theorem DueInv_step (processed : List DeviceDueSoon) (acc : List GroupedClient)
    (d : DeviceDueSoon) (h : DueInv processed acc) :
    DueInv (processed ++ [d]) (dueUpsert d acc) := by
  obtain ⟨hnd, hchar⟩ := h
  constructor
  · rw [dueUpsert_keys]
    cases hf : findGC (dueClientKey d) acc with
    | some g => exact hnd
    | none =>
      have hnot : dueClientKey d ∉ acc.map GroupedClient.key :=
        (findGC_eq_none_iff _ _).mp hf
      simp [List.nodup_append, hnd, hnot]
  · intro k
    rw [findGC_dueUpsert]
    by_cases hk : k = dueClientKey d
    · rw [if_pos hk]
      have hc := hchar k
      have hd : (fun x => decide (dueClientKey x = k)) d = true := by
        simp [hk]
      cases hf : findGC k acc with
      | none =>
        rw [hf] at hc
        refine ⟨hk.symm ▸ newDueGroup_key d, ?_, rfl, rfl⟩
        simp [newDueGroup, List.filter_append, hc, hd]
      | some g =>
        rw [hf] at hc
        obtain ⟨hgk, hgdev, hgtot, hgmin⟩ := hc
        refine ⟨hgk, ?_, ?_, ?_⟩
        · simp [updDueGroup, List.filter_append, hd, hgdev]
        · simp [updDueGroup, hgtot]
        · simp only [updDueGroup, List.map_append, List.map_cons, List.map_nil]
          rw [listMinNat_append_one, hgmin]
          have : min g.earliestDueDate d.due_date =
              if d.due_date < g.earliestDueDate then d.due_date
              else g.earliestDueDate := by
            rw [Nat.min_def]
            split <;> split <;> omega
          simp [this]
    · rw [if_neg hk]
      have hc := hchar k
      have hd : (fun x => decide (dueClientKey x = k)) d = false := by
        simp
        exact fun e => hk e.symm
      cases hf : findGC k acc with
      | none =>
        rw [hf] at hc
        simp [List.filter_append, hc, hd]
      | some g =>
        rw [hf] at hc
        obtain ⟨hgk, hgdev, hgtot, hgmin⟩ := hc
        refine ⟨hgk, ?_, hgtot, hgmin⟩
        simp [List.filter_append, hd, hgdev]

theorem DueInv_fold (l processed : List DeviceDueSoon) (acc : List GroupedClient)
    (h : DueInv processed acc) :
    DueInv (processed ++ l) (l.foldl (fun a d => dueUpsert d a) acc) := by
  induction l generalizing processed acc with
  | nil => simpa using h
  | cons d rest ih =>
    have step := ih (processed ++ [d]) (dueUpsert d acc) (DueInv_step _ _ _ h)
    simpa using step

theorem DueInv_raw (devices : List DeviceDueSoon) :
    DueInv devices (dueGroupsRaw devices) := by
  have base : DueInv [] [] := by
    refine ⟨by simp, fun k => ?_⟩
    simp [findGC]
  have := DueInv_fold devices [] [] base
  simpa [dueGroupsRaw] using this

/-- Every group the due-soon grouper emits holds exactly the input rows whose
hyphen-joined client/location key equals the group's key, and its aggregates
are derived from that member list. -/
theorem raw_group_char (devices : List DeviceDueSoon) (g : GroupedClient)
    (hg : g ∈ dueGroupsRaw devices) :
    g.devices = devices.filter (fun d => dueClientKey d = g.key) ∧
    g.totalDevices = g.devices.length ∧
    listMinNat (g.devices.map DeviceDueSoon.due_date) = some g.earliestDueDate := by
  obtain ⟨hnd, hchar⟩ := DueInv_raw devices
  have hf := findGC_self_of_nodup _ hnd g hg
  have hc := hchar g.key
  rw [hf] at hc
  exact ⟨hc.2.1, hc.2.2⟩

theorem mem_groupedClients_iff (devices : List DeviceDueSoon) (g : GroupedClient) :
    g ∈ groupedClients devices ↔ g ∈ dueGroupsRaw devices :=
  (List.perm_insertionSort dueLe (dueGroupsRaw devices)).mem_iff

/-- C8: the due-soon grouper emits groups sorted ascending by earliest due
date; every group's earliest-due-date aggregate is the minimum due date over
its final member list and its member count is the length of that list; the
two-record example for client A at Home yields one group with earliest
2024-01-01 and member count 2. -/
theorem due_groups_sorted_and_aggregates (devices : List DeviceDueSoon) :
    List.Sorted dueLe (groupedClients devices) ∧
    (∀ g ∈ groupedClients devices,
      g.totalDevices = g.devices.length ∧
      listMinNat (g.devices.map DeviceDueSoon.due_date) = some g.earliestDueDate) ∧
    groupedClients [exDueA1, exDueA2] = [exDueGroupA] := by
  refine ⟨List.sorted_insertionSort dueLe _, ?_, by decide⟩
  intro g hg
  exact (raw_group_char devices g ((mem_groupedClients_iff devices g).mp hg)).2

/-- C8 witness: the aggregate clauses instantiated on the concrete group of
the two example rows. -/
theorem due_groups_sorted_and_aggregates_witness :
    exDueGroupA.totalDevices = exDueGroupA.devices.length ∧
    listMinNat (exDueGroupA.devices.map DeviceDueSoon.due_date) =
      some exDueGroupA.earliestDueDate :=
  (due_groups_sorted_and_aggregates [exDueA1, exDueA2]).2.1 exDueGroupA (by decide)

theorem getAssoc_append_one {β : Type} (k k' : String) (v : β)
    (l : List (String × β)) :
    getAssoc k (l ++ [(k', v)]) =
      match getAssoc k l with
      | some w => some w
      | none => if k' = k then some v else none := by
  induction l with
  | nil => simp [getAssoc]
  | cons p t ih =>
    obtain ⟨a, b⟩ := p
    by_cases h : a = k <;> simp [getAssoc, h, ih]

theorem getAssoc_setAssoc {β : Type} (k dk : String) (v : β)
    (l : List (String × β)) :
    getAssoc k (setAssoc dk v l) =
      if dk = k then some v else getAssoc k l := by
  induction l with
  | nil => simp [setAssoc, getAssoc]
  | cons p t ih =>
    obtain ⟨a, b⟩ := p
    by_cases ha : a = dk
    · by_cases hk : dk = k
      · simp [setAssoc, getAssoc, ha, hk]
      · have : ¬ a = k := fun e => hk ((ha.symm.trans e))
        simp [setAssoc, getAssoc, ha, hk, this]
    · by_cases hak : a = k
      · have h1 : ¬ dk = k := fun e => ha (hak.trans e.symm)
        have h2 : ¬ k = dk := fun e => h1 e.symm
        simp [setAssoc, getAssoc, ha, hak, h1, h2]
      · simp [setAssoc, getAssoc, ha, hak, ih]

theorem mem_setAssoc {β : Type} (k : String) (v : β) (l : List (String × β)) :
    ∀ e ∈ setAssoc k v l, e = (k, v) ∨ e ∈ l := by
  induction l with
  | nil => simp [setAssoc]
  | cons p t ih =>
    obtain ⟨a, b⟩ := p
    by_cases h : a = k
    · intro e he
      rw [setAssoc, if_pos h] at he
      rcases List.mem_cons.mp he with rfl | he'
      · exact Or.inl rfl
      · exact Or.inr (List.mem_cons_of_mem _ he')
    · intro e he
      rw [setAssoc, if_neg h] at he
      rcases List.mem_cons.mp he with rfl | he'
      · exact Or.inr (List.mem_cons_self _ _)
      · rcases ih e he' with h1 | h2
        · exact Or.inl h1
        · exact Or.inr (List.mem_cons_of_mem _ h2)

theorem setAssoc_keys_of_found {β : Type} (k : String) (v w : β)
    (l : List (String × β)) (h : getAssoc k l = some w) :
    (setAssoc k v l).map Prod.fst = l.map Prod.fst := by
  induction l with
  | nil => simp [getAssoc] at h
  | cons p t ih =>
    obtain ⟨a, b⟩ := p
    by_cases ha : a = k
    · simp [setAssoc, ha]
    · rw [getAssoc, if_neg ha] at h
      simp [setAssoc, ha, ih h]

theorem getAssoc_eq_none_iff {β : Type} (k : String) (l : List (String × β)) :
    getAssoc k l = none ↔ k ∉ l.map Prod.fst := by
  induction l with
  | nil => simp [getAssoc]
  | cons p t ih =>
    obtain ⟨a, b⟩ := p
    by_cases h : a = k
    · simp [getAssoc, h]
    · simp [getAssoc, h, ih]
      exact fun _ e => h e.symm

theorem getAssoc_some_mem {β : Type} (k : String) (v : β)
    (l : List (String × β)) (h : getAssoc k l = some v) : (k, v) ∈ l := by
  induction l with
  | nil => simp [getAssoc] at h
  | cons p t ih =>
    obtain ⟨a, b⟩ := p
    by_cases ha : a = k
    · rw [getAssoc, if_pos ha] at h
      subst ha
      cases h
      exact List.mem_cons_self _ _
    · rw [getAssoc, if_neg ha] at h
      exact List.mem_cons_of_mem _ (ih h)

theorem getAssoc_overdueInsert (now : Nat) (devs : List (String × DeviceOverdue))
    (device : DeviceOverdue) (k : String) :
    getAssoc k (overdueInsert now devs device) =
      if devKey device = k then
        match getAssoc k devs with
        | none => some device
        | some e => if overdueReplaces now device e then some device else some e
      else getAssoc k devs := by
  unfold overdueInsert
  split
  · rename_i hf
    rw [getAssoc_append_one]
    by_cases hk : devKey device = k
    · rw [hk] at hf
      simp [hf, hk]
    · cases h : getAssoc k devs <;> simp [hk, h]
  · rename_i e hf
    by_cases hr : overdueReplaces now device e
    · rw [if_pos hr, getAssoc_setAssoc]
      by_cases hk : devKey device = k
      · rw [hk] at hf
        simp [hf, hk, hr]
      · simp [hk]
    · rw [if_neg hr]
      by_cases hk : devKey device = k
      · rw [hk] at hf
        simp [hf, hk, hr]
      · simp [hk]

theorem mem_overdueInsert (now : Nat) (devs : List (String × DeviceOverdue))
    (device : DeviceOverdue) :
    ∀ e ∈ overdueInsert now devs device,
      e ∈ devs ∨ e = (devKey device, device) := by
  unfold overdueInsert
  split
  · rename_i hf
    intro e he
    rcases List.mem_append.mp he with h1 | h2
    · exact Or.inl h1
    · exact Or.inr (by simpa using h2)
  · rename_i ex hf
    by_cases hr : overdueReplaces now device ex
    · rw [if_pos hr]
      intro e he
      rcases mem_setAssoc _ _ _ e he with h1 | h2
      · exact Or.inr h1
      · exact Or.inl h2
    · rw [if_neg hr]
      exact fun e he => Or.inl he

theorem overdueInsert_keys (now : Nat) (devs : List (String × DeviceOverdue))
    (device : DeviceOverdue) :
    (overdueInsert now devs device).map Prod.fst =
      match getAssoc (devKey device) devs with
      | none => devs.map Prod.fst ++ [devKey device]
      | some _ => devs.map Prod.fst := by
  split
  · rename_i hf
    simp only [overdueInsert, hf]
    simp
  · rename_i ex hf
    simp only [overdueInsert, hf]
    by_cases hr : overdueReplaces now device ex
    · rw [if_pos hr]
      exact setAssoc_keys_of_found _ _ _ _ hf
    · rw [if_neg hr]

theorem resolveWith_append_one (b : DeviceOverdue → DeviceOverdue → Bool)
    (l : List DeviceOverdue) (d : DeviceOverdue) :
    resolveWith b (l ++ [d]) =
      match resolveWith b l with
      | none => some d
      | some e => if b d e then some d else some e := by
  unfold resolveWith
  rw [List.foldl_append]
  rfl

theorem foldl_pick_isSome (b : DeviceOverdue → DeviceOverdue → Bool)
    (l : List DeviceOverdue) (e : DeviceOverdue) :
    (l.foldl
      (fun acc d =>
        match acc with
        | none => some d
        | some e' => if b d e' then some d else some e')
      (some e)).isSome := by
  induction l generalizing e with
  | nil => rfl
  | cons d t ih =>
    simp only [List.foldl_cons]
    split <;> exact ih _

theorem resolveWith_isSome (b : DeviceOverdue → DeviceOverdue → Bool)
    (l : List DeviceOverdue) (h : l ≠ []) : (resolveWith b l).isSome := by
  cases l with
  | nil => exact absurd rfl h
  | cons d t =>
    unfold resolveWith
    simpa using foldl_pick_isSome b t d

theorem resolveWith_mem (b : DeviceOverdue → DeviceOverdue → Bool) :
    ∀ (l : List DeviceOverdue) (e : DeviceOverdue),
      resolveWith b l = some e → e ∈ l := by
  have aux : ∀ (l : List DeviceOverdue) (acc : Option DeviceOverdue)
      (e : DeviceOverdue),
      l.foldl
        (fun acc d =>
          match acc with
          | none => some d
          | some e' => if b d e' then some d else some e')
        acc = some e → acc = some e ∨ e ∈ l := by
    intro l
    induction l with
    | nil => exact fun acc e h => Or.inl h
    | cons d t ih =>
      intro acc e h
      rw [List.foldl_cons] at h
      rcases ih _ e h with h1 | h2
      · match acc, h1 with
        | none, h1 => exact Or.inr (by cases h1; exact List.mem_cons_self _ _)
        | some a, h1 =>
          rw [show (match some a with
              | none => some d
              | some e' => if b d e' then some d else some e') =
              if b d a then some d else some a from rfl] at h1
          by_cases hb : b d a
          · rw [if_pos hb] at h1
            cases h1
            exact Or.inr (List.mem_cons_self _ _)
          · rw [if_neg hb] at h1
            exact Or.inl h1
      · exact Or.inr (List.mem_cons_of_mem _ h2)
  intro l e h
  rcases aux l none e h with h1 | h2
  · cases h1
  · exact h2

theorem resolveWith_congr (b1 b2 : DeviceOverdue → DeviceOverdue → Bool)
    (l : List DeviceOverdue) (h : ∀ x ∈ l, ∀ y ∈ l, b1 x y = b2 x y) :
    resolveWith b1 l = resolveWith b2 l := by
  induction l using List.reverseRecOn with
  | nil => rfl
  | append_singleton t d ih =>
    rw [resolveWith_append_one, resolveWith_append_one,
      ih (fun x hx y hy => h x (List.mem_append_left _ hx) y
        (List.mem_append_left _ hy))]
    cases hr : resolveWith b2 t with
    | none => rfl
    | some e =>
      have he : e ∈ t := resolveWith_mem b2 t e hr
      show (if b1 d e then some d else some e) = (if b2 d e then some d else some e)
      rw [h d (List.mem_append_right _ (List.mem_singleton.mpr rfl)) e
        (List.mem_append_left _ he)]

theorem newOverdueGroup_key (now : Nat) (device : DeviceOverdue) :
    (newOverdueGroup now device).key = clientKey device := rfl

theorem newOverdueGroup_devices (now : Nat) (device : DeviceOverdue) :
    (newOverdueGroup now device).devices = [(devKey device, device)] := rfl

theorem updOverdueGroup_key (now : Nat) (g : OverdueGroup) (device : DeviceOverdue) :
    (updOverdueGroup now g device).key = g.key := rfl

theorem findGroup_eq_none_iff (k : String) (acc : List OverdueGroup) :
    findGroup k acc = none ↔ k ∉ acc.map OverdueGroup.key := by
  induction acc with
  | nil => simp [findGroup]
  | cons g gs ih =>
    by_cases h : g.key = k
    · simp [findGroup, h]
    · simp [findGroup, h, ih]
      exact fun _ e => h e.symm

theorem findGroup_self_of_nodup (acc : List OverdueGroup)
    (hnd : (acc.map OverdueGroup.key).Nodup) :
    ∀ g ∈ acc, findGroup g.key acc = some g := by
  induction acc with
  | nil => simp
  | cons a gs ih =>
    intro g hg
    rcases List.mem_cons.mp hg with rfl | hmem
    · simp [findGroup]
    · have hne : ¬ a.key = g.key := by
        intro e
        exact (List.nodup_cons.mp (by simpa using hnd)).1
          (e ▸ List.mem_map_of_mem OverdueGroup.key hmem)
      have ih' := ih (List.nodup_cons.mp (by simpa using hnd)).2 g hmem
      simp [findGroup, hne, ih']

theorem findGroup_upsert (now : Nat) (device : DeviceOverdue)
    (acc : List OverdueGroup) (k : String) :
    findGroup k (upsertOverdueGroups now device acc) =
      if k = clientKey device then
        match findGroup k acc with
        | none => some (newOverdueGroup now device)
        | some g => some (updOverdueGroup now g device)
      else findGroup k acc := by
  induction acc with
  | nil =>
    by_cases h : k = clientKey device
    · subst h
      simp [upsertOverdueGroups, findGroup, newOverdueGroup_key]
    · have h2 : ¬ (newOverdueGroup now device).key = k := by
        rw [newOverdueGroup_key]
        exact fun e => h e.symm
      simp [upsertOverdueGroups, findGroup, h, h2]
  | cons g gs ih =>
    by_cases hg : g.key = clientKey device
    · by_cases hk : k = clientKey device
      · subst hk
        simp [upsertOverdueGroups, hg, findGroup, updOverdueGroup_key]
      · have h1 : ¬ g.key = k := fun e => hk (e.symm.trans hg)
        have h2 : ¬ clientKey device = k := fun e => hk e.symm
        simp [upsertOverdueGroups, hg, findGroup, updOverdueGroup_key, h1, h2, hk]
    · by_cases hgk : g.key = k
      · have hk : ¬ k = clientKey device := fun e => hg (hgk.trans e)
        simp [upsertOverdueGroups, hg, findGroup, hgk, hk]
      · simp [upsertOverdueGroups, hg, findGroup, hgk, ih]

theorem upsertOverdueGroups_keys (now : Nat) (device : DeviceOverdue)
    (acc : List OverdueGroup) :
    (upsertOverdueGroups now device acc).map OverdueGroup.key =
      match findGroup (clientKey device) acc with
      | none => acc.map OverdueGroup.key ++ [clientKey device]
      | some _ => acc.map OverdueGroup.key := by
  induction acc with
  | nil => simp [upsertOverdueGroups, findGroup, newOverdueGroup_key]
  | cons g gs ih =>
    by_cases hg : g.key = clientKey device
    · simp [upsertOverdueGroups, hg, findGroup, updOverdueGroup_key]
    · cases h : findGroup (clientKey device) gs <;>
        simp [upsertOverdueGroups, hg, findGroup, ih, h]

theorem mem_upsertOverdueGroups (now : Nat) (device : DeviceOverdue)
    (acc : List OverdueGroup) :
    ∀ g' ∈ upsertOverdueGroups now device acc,
      g' ∈ acc ∨
      (∃ g ∈ acc, g.key = clientKey device ∧ g' = updOverdueGroup now g device) ∨
      g' = newOverdueGroup now device := by
  induction acc with
  | nil =>
    intro g' hg'
    simp [upsertOverdueGroups] at hg'
    exact Or.inr (Or.inr hg')
  | cons g gs ih =>
    intro g' hg'
    by_cases hg : g.key = clientKey device
    · rw [upsertOverdueGroups, if_pos hg] at hg'
      rcases List.mem_cons.mp hg' with rfl | hmem
      · exact Or.inr (Or.inl ⟨g, List.mem_cons_self _ _, hg, rfl⟩)
      · exact Or.inl (List.mem_cons_of_mem _ hmem)
    · rw [upsertOverdueGroups, if_neg hg] at hg'
      rcases List.mem_cons.mp hg' with rfl | hmem
      · exact Or.inl (List.mem_cons_self _ _)
      · rcases ih g' hmem with h1 | h2 | h3
        · exact Or.inl (List.mem_cons_of_mem _ h1)
        · obtain ⟨g0, hg0, hk0, he0⟩ := h2
          exact Or.inr (Or.inl ⟨g0, List.mem_cons_of_mem _ hg0, hk0, he0⟩)
        · exact Or.inr (Or.inr h3)

theorem updOverdueGroup_devices (now : Nat) (g : OverdueGroup)
    (device : DeviceOverdue) :
    (updOverdueGroup now g device).devices =
      overdueInsert now g.devices device := rfl

theorem OverdueInv_step (now : Nat) (processed : List DeviceOverdue)
    (acc : List OverdueGroup) (device : DeviceOverdue)
    (h : OverdueInv now processed acc) :
    OverdueInv now (processed ++ [device]) (upsertOverdueGroups now device acc) := by
  obtain ⟨hnd, hwk, hchar⟩ := h
  refine ⟨?_, ?_, ?_⟩
  · rw [upsertOverdueGroups_keys]
    cases hf : findGroup (clientKey device) acc with
    | some g => exact hnd
    | none =>
      have hnot : clientKey device ∉ acc.map OverdueGroup.key :=
        (findGroup_eq_none_iff _ _).mp hf
      simp [List.nodup_append, hnd, hnot]
  · intro g' hg'
    rcases mem_upsertOverdueGroups now device acc g' hg' with h1 | h2 | h3
    · exact hwk g' h1
    · obtain ⟨g, hg, hk, rfl⟩ := h2
      constructor
      · rw [updOverdueGroup_devices, overdueInsert_keys]
        cases hga : getAssoc (devKey device) g.devices with
        | some _ => exact (hwk g hg).1
        | none =>
          have hnot : devKey device ∉ g.devices.map Prod.fst :=
            (getAssoc_eq_none_iff _ _).mp hga
          simp [List.nodup_append, (hwk g hg).1, hnot]
      · intro e he
        rw [updOverdueGroup_devices] at he
        rcases mem_overdueInsert now g.devices device e he with h1 | h2
        · exact ⟨((hwk g hg).2 e h1).1, ((hwk g hg).2 e h1).2⟩
        · subst h2
          exact ⟨rfl, hk.symm⟩
    · subst h3
      refine ⟨by simp [newOverdueGroup_devices], ?_⟩
      intro e he
      rw [newOverdueGroup_devices] at he
      rcases List.mem_singleton.mp he with rfl
      exact ⟨rfl, rfl⟩
  · intro k
    rw [findGroup_upsert]
    by_cases hk : k = clientKey device
    · rw [if_pos hk]
      have hc := hchar k
      cases hf : findGroup k acc with
      | none =>
        rw [hf] at hc
        refine ⟨(newOverdueGroup_key now device).trans hk.symm, ?_⟩
        intro dk
        rw [newOverdueGroup_devices]
        have hfilter :
            processed.filter (fun d => clientKey d = k ∧ devKey d = dk) = [] := by
          rw [List.filter_eq_nil_iff] at hc ⊢
          intro a ha
          have := hc a ha
          simp at this ⊢
          exact fun e _ => this e
        rw [List.filter_append, hfilter]
        by_cases hdk : devKey device = dk
        · have hone :
              List.filter (fun d => decide (clientKey d = k ∧ devKey d = dk))
                [device] = [device] := by
            simp [hk.symm, hdk]
          rw [List.nil_append, hone]
          simp [getAssoc, hdk, resolveWith]
        · have hzero :
              List.filter (fun d => decide (clientKey d = k ∧ devKey d = dk))
                [device] = [] := by
            simp [hdk]
          rw [List.nil_append, hzero]
          simp [getAssoc, hdk, resolveWith]
      | some g =>
        rw [hf] at hc
        obtain ⟨hgk, hslots⟩ := hc
        refine ⟨(updOverdueGroup_key now g device).trans hgk, ?_⟩
        intro dk
        rw [updOverdueGroup_devices, getAssoc_overdueInsert, List.filter_append]
        by_cases hdk : devKey device = dk
        · rw [if_pos hdk]
          have hone :
              List.filter (fun d => decide (clientKey d = k ∧ devKey d = dk))
                [device] = [device] := by
            simp [hk.symm, hdk]
          rw [hone, resolveWith_append_one, ← hslots dk]
        · rw [if_neg hdk]
          have hzero :
              List.filter (fun d => decide (clientKey d = k ∧ devKey d = dk))
                [device] = [] := by
            simp [hdk]
          rw [hzero, List.append_nil]
          exact hslots dk
    · rw [if_neg hk]
      have hc := hchar k
      have hdev : List.filter (fun d => decide (clientKey d = k)) [device] = [] := by
        simp
        exact fun e => hk e.symm
      cases hf : findGroup k acc with
      | none =>
        rw [hf] at hc
        rw [List.filter_append, hc, hdev]
        rfl
      | some g =>
        rw [hf] at hc
        obtain ⟨hgk, hslots⟩ := hc
        refine ⟨hgk, fun dk => ?_⟩
        have hzero :
            List.filter (fun d => decide (clientKey d = k ∧ devKey d = dk))
              [device] = [] := by
          simp
          exact fun e _ => hk e.symm
        rw [List.filter_append, hzero, List.append_nil]
        exact hslots dk

theorem OverdueInv_fold (now : Nat) (l processed : List DeviceOverdue)
    (acc : List OverdueGroup) (h : OverdueInv now processed acc) :
    OverdueInv now (processed ++ l)
      (l.foldl (fun a d => upsertOverdueGroups now d a) acc) := by
  induction l generalizing processed acc with
  | nil => simpa using h
  | cons d rest ih =>
    have step := ih (processed ++ [d]) (upsertOverdueGroups now d acc)
      (OverdueInv_step now processed acc d h)
    simpa using step

theorem OverdueInv_raw (now : Nat) (devices : List DeviceOverdue) :
    OverdueInv now devices (groupedDevices now devices) := by
  have base : OverdueInv now [] [] := by
    refine ⟨by simp, by simp, fun k => ?_⟩
    simp [findGroup]
  have := OverdueInv_fold now devices [] [] base
  simpa [groupedDevices] using this

/-- The slot the overdue view keeps for a (client key, device key) pair is the
left fold of the code's replacement rule over the matching input rows. -/
theorem retainedAt_char (now : Nat) (devices : List DeviceOverdue)
    (ck dk : String) :
    retainedAt now devices ck dk =
      resolveWith (overdueReplaces now)
        (devices.filter (fun d => clientKey d = ck ∧ devKey d = dk)) := by
  unfold retainedAt
  obtain ⟨hnd, hwk, hchar⟩ := OverdueInv_raw now devices
  have hc := hchar ck
  cases hf : findGroup ck (groupedDevices now devices) with
  | none =>
    rw [hf] at hc
    have hz : devices.filter (fun d => clientKey d = ck ∧ devKey d = dk) = [] := by
      rw [List.filter_eq_nil_iff] at hc ⊢
      intro a ha
      have := hc a ha
      simp at this ⊢
      exact fun e _ => this e
    rw [hz]
    rfl
  | some g =>
    rw [hf] at hc
    exact hc.2 dk

/-- With day-aligned due dates and a shared `now`, the code's fractional-hour
`Math.ceil` days-overdue compares two obligations exactly as the calendar-day
midnight-to-midnight count does. -/
theorem daysOverdue_compare (now d1 d2 : Nat)
    (h1 : d1 % msPerDay = 0) (h2 : d2 % msPerDay = 0)
    (h1' : d1 ≤ now) (h2' : d2 ≤ now) :
    (jsDaysOverdue now d1 > jsDaysOverdue now d2 ↔
      specDaysOverdue now d1 > specDaysOverdue now d2) := by
  unfold jsDaysOverdue specDaysOverdue msPerDay at *
  omega

theorem overdueReplaces_eq_specReplaces (now : Nat) (a b : DeviceOverdue)
    (ha : a.due_date % msPerDay = 0) (hb : b.due_date % msPerDay = 0)
    (ha' : a.due_date ≤ now) (hb' : b.due_date ≤ now) :
    overdueReplaces now a b = specReplaces now a b := by
  unfold overdueReplaces specReplaces
  have h := daysOverdue_compare now a.due_date b.due_date ha hb ha' hb'
  by_cases hp : getServicePriority a.due_type > getServicePriority b.due_type
  · simp [hp]
  · by_cases he : getServicePriority a.due_type = getServicePriority b.due_type
    · simp [hp, he, h]
    · simp [hp, he]

/-- C2: over overdue inputs (due dates midnight-aligned and not after `now`),
for every client key and device key the retained obligation is exactly the
winner of the spec's total order — higher interval-kind priority first, then
larger calendar-day (midnight-to-midnight) days overdue, first-encountered on
ties — folded over the matching rows in input order; and each group's device
map retains at most one entry per dedup key. -/
theorem overdue_resolver_priority_order (now : Nat) (devices : List DeviceOverdue)
    (halign : ∀ d ∈ devices, d.due_date % msPerDay = 0)
    (hover : ∀ d ∈ devices, d.due_date ≤ now) :
    (∀ ck dk,
      retainedAt now devices ck dk =
        resolveOverdueSpec now
          (devices.filter (fun d => clientKey d = ck ∧ devKey d = dk))) ∧
    ∀ g ∈ groupedDevices now devices, (g.devices.map Prod.fst).Nodup := by
  constructor
  · intro ck dk
    rw [retainedAt_char]
    unfold resolveOverdueSpec
    apply resolveWith_congr
    intro x hx y hy
    have hx' := (List.mem_filter.mp hx).1
    have hy' := (List.mem_filter.mp hy).1
    exact overdueReplaces_eq_specReplaces now x y (halign x hx') (halign y hy')
      (hover x hx') (hover y hy')
  · intro g hg
    exact ((OverdueInv_raw now devices).2.1 g hg).1

/-- C2 witness: the resolver equation instantiated on a device carrying a
short obligation 5 days overdue and a long obligation 1 day overdue at
`now = day 10`. -/
theorem overdue_resolver_priority_order_witness :
    retainedAt (10 * 86400000) [exOvShort, exOvLong] "Acme-HQ" "dev1-AC" =
      resolveOverdueSpec (10 * 86400000)
        ([exOvShort, exOvLong].filter
          (fun d => clientKey d = "Acme-HQ" ∧ devKey d = "dev1-AC")) :=
  (overdue_resolver_priority_order (10 * 86400000) [exOvShort, exOvLong]
    (by decide) (by decide)).1 "Acme-HQ" "dev1-AC"

theorem assoc_entry_unique {β : Type} (l : List (String × β))
    (h : (l.map Prod.fst).Nodup) :
    ∀ e1 ∈ l, ∀ e2 ∈ l, e1.1 = e2.1 → e1 = e2 := by
  induction l with
  | nil => simp
  | cons p t ih =>
    have hh : p.1 ∉ t.map Prod.fst ∧ (t.map Prod.fst).Nodup := by
      rw [List.map_cons, List.nodup_cons] at h
      exact h
    intro e1 he1 e2 he2 hk
    rcases List.mem_cons.mp he1 with rfl | hm1
    · rcases List.mem_cons.mp he2 with rfl | hm2
      · rfl
      · exact absurd (hk ▸ List.mem_map_of_mem Prod.fst hm2) hh.1
    · rcases List.mem_cons.mp he2 with rfl | hm2
      · exact absurd (hk ▸ List.mem_map_of_mem Prod.fst hm1) hh.1
      · exact ih hh.2 e1 hm1 e2 hm2 hk

theorem joinKey_name_inj (i n1 n2 : String) (h : joinKey i n1 = joinKey i n2) :
    n1 = n2 := by
  unfold joinKey at h
  have hd : i.data ++ (String.data "-" ++ n1.data) =
      i.data ++ (String.data "-" ++ n2.data) := by
    have := congrArg String.data h
    simpa [String.data_append, List.append_assoc] using this
  exact String.ext (List.append_cancel_left (List.append_cancel_left hd))

theorem devKey_ne_of_name_ne (a b : DeviceOverdue) (hid : a.id = b.id)
    (hname : a.name ≠ b.name) : devKey a ≠ devKey b := by
  unfold devKey
  rw [hid]
  exact fun e => hname (joinKey_name_inj _ _ _ e)

theorem retainedAt_isSome_of_mem (now : Nat) (devices : List DeviceOverdue)
    (d : DeviceOverdue) (hd : d ∈ devices) :
    (retainedAt now devices (clientKey d) (devKey d)).isSome := by
  rw [retainedAt_char]
  apply resolveWith_isSome
  intro hnil
  rw [List.filter_eq_nil_iff] at hnil
  have := hnil d hd
  simp at this

/-- C10: the overdue dedup identity is the `(id, name)` pair: within every
group two retained entries agreeing on both id and name are the same entry (at
most one per pair), while two overdue rows sharing an id but differing in name
have distinct dedup keys and each key stays retained in the output. -/
theorem dedup_key_id_name_pair (now : Nat) (devices : List DeviceOverdue)
    (d1 d2 : DeviceOverdue) (h1 : d1 ∈ devices) (h2 : d2 ∈ devices)
    (hid : d1.id = d2.id) (hname : d1.name ≠ d2.name) :
    (∀ g ∈ groupedDevices now devices, ∀ e1 ∈ g.devices, ∀ e2 ∈ g.devices,
      e1.2.id = e2.2.id → e1.2.name = e2.2.name → e1 = e2) ∧
    devKey d1 ≠ devKey d2 ∧
    (retainedAt now devices (clientKey d1) (devKey d1)).isSome ∧
    (retainedAt now devices (clientKey d2) (devKey d2)).isSome := by
  refine ⟨?_, devKey_ne_of_name_ne d1 d2 hid hname,
    retainedAt_isSome_of_mem now devices d1 h1,
    retainedAt_isSome_of_mem now devices d2 h2⟩
  intro g hg e1 he1 e2 he2 hi hn
  have hwk := (OverdueInv_raw now devices).2.1 g hg
  apply assoc_entry_unique g.devices hwk.1 e1 he1 e2 he2
  rw [(hwk.2 e1 he1).1, (hwk.2 e2 he2).1]
  unfold devKey
  rw [hi, hn]

/-- C10 witness: two overdue rows with id 7 and names Left/Right. -/
theorem dedup_key_id_name_pair_witness :
    devKey exOvLeft ≠ devKey exOvRight ∧
    (retainedAt (10 * 86400000) [exOvLeft, exOvRight] (clientKey exOvLeft)
      (devKey exOvLeft)).isSome ∧
    (retainedAt (10 * 86400000) [exOvLeft, exOvRight] (clientKey exOvRight)
      (devKey exOvRight)).isSome := by
  have h := dedup_key_id_name_pair (10 * 86400000) [exOvLeft, exOvRight]
    exOvLeft exOvRight (by decide) (by decide) (by decide) (by decide)
  exact ⟨h.2.1, h.2.2.1, h.2.2.2⟩

/-- C7 counterexample: the rows `(client "a", location "b-c")` and
`(client "a-b", location "c")` have different client names yet land in the
same group, because the group key is the hyphen-join `a-b-c` of both: the
claim's "same group only if client names are equal" is false. -/
theorem group_key_collision_cex :
    cexDueX.client_name ≠ cexDueY.client_name ∧
    groupedClients [cexDueX, cexDueY] =
      [{ key := "a-b-c", clientName := "a", locationName := "b-c",
         devices := [cexDueX, cexDueY], earliestDueDate := 5,
         totalDevices := 2 }] := by
  constructor
  · decide
  · decide

/-- C7 amended: both groupers key on the literal hyphen-join
`client_name ++ "-" ++ location_name` with no normalization: two records share
a group exactly when their joins are equal (equal name pairs always share, but
distinct pairs whose joins collide are merged); in the overdue card every
retained entry carries its group's join key and every input row's join key has
a group. -/
theorem group_key_amended :
    (∀ (devices : List DeviceDueSoon) (g : GroupedClient),
      g ∈ groupedClients devices →
      ∀ d1 ∈ g.devices, ∀ d2 ∈ g.devices, dueClientKey d1 = dueClientKey d2) ∧
    (∀ (devices : List DeviceDueSoon) (g : GroupedClient),
      g ∈ groupedClients devices →
      ∀ d1 ∈ g.devices, ∀ d2 ∈ devices,
        dueClientKey d2 = dueClientKey d1 → d2 ∈ g.devices) ∧
    (∀ (now : Nat) (devices : List DeviceOverdue) (g : OverdueGroup),
      g ∈ groupedDevices now devices → ∀ e ∈ g.devices, clientKey e.2 = g.key) ∧
    (∀ (now : Nat) (devices : List DeviceOverdue) (d : DeviceOverdue),
      d ∈ devices →
      findGroup (clientKey d) (groupedDevices now devices) ≠ none) := by
  refine ⟨?_, ?_, ?_, ?_⟩
  · intro devices g hg d1 h1 d2 h2
    have hc := (raw_group_char devices g ((mem_groupedClients_iff devices g).mp hg)).1
    rw [hc] at h1 h2
    have e1 := (List.mem_filter.mp h1).2
    have e2 := (List.mem_filter.mp h2).2
    simp at e1 e2
    rw [e1, e2]
  · intro devices g hg d1 h1 d2 h2 hk
    have hc := (raw_group_char devices g ((mem_groupedClients_iff devices g).mp hg)).1
    rw [hc] at h1 ⊢
    have e1 := (List.mem_filter.mp h1).2
    simp at e1
    exact List.mem_filter.mpr ⟨h2, by simp [hk.trans e1]⟩
  · intro now devices g hg e he
    exact (((OverdueInv_raw now devices).2.1 g hg).2 e he).2
  · intro now devices d hd hnone
    obtain ⟨hnd, hwk, hchar⟩ := OverdueInv_raw now devices
    have hc := hchar (clientKey d)
    rw [hnone] at hc
    rw [List.filter_eq_nil_iff] at hc
    have := hc d hd
    simp at this

/-- C7 witness: the shared-group direction instantiated on the two concrete
rows of client A at Home. -/
theorem group_key_amended_witness :
    exDueA2 ∈ exDueGroupA.devices :=
  group_key_amended.2.1 [exDueA1, exDueA2] exDueGroupA (by decide)
    exDueA1 (by decide) exDueA2 (by decide) (by decide)

end Presko

